import Mathlib

/-!
Verification of the Mythic Runes round engine.

This file gives a shallow embedding of the core game logic (dictionary
loading, letter-pool generation, multiset word-formation check, scoring,
round state and submission pipeline, countdown timer) and proves the
specified properties about it.  JavaScript strings are modelled as
`List Char`, JavaScript `Set` objects as duplicate-free lists with
insertion-order append, `Date.now()` as an explicit `now : Nat`
parameter, and `Math.random()` draws as an explicit oracle
`rand : Nat -> Nat` (call number to value; indices produced by
`Math.floor(Math.random() * len)` lie in `[0, len)`, modelled by `% len`).
-/

namespace MysticRunes

/-- ASCII lowercasing, the behaviour of `toLowerCase()` on the ASCII
letters the game manipulates. -/
def asciiToLower (c : Char) : Char :=
  if 'A' ≤ c ∧ c ≤ 'Z' then Char.ofNat (c.toNat + 32) else c

/-- ASCII whitespace, the characters `trim()` strips that can occur here. -/
def isAsciiSpace (c : Char) : Bool :=
  c == ' ' || c == '\t' || c == '\n' || c == '\r'

/-- `String.prototype.trim`: strip whitespace from both ends. -/
def jsTrim (s : List Char) : List Char :=
  ((s.dropWhile isAsciiSpace).reverse.dropWhile isAsciiSpace).reverse

/-- A lowercase ASCII letter (the regex class `[a-z]`). -/
def isLowerAZ (c : Char) : Bool := 'a' ≤ c && c ≤ 'z'

/-- An ASCII letter (the regex class `[a-zA-Z]`). -/
def isAlphaAZ (c : Char) : Bool :=
  ('a' ≤ c && c ≤ 'z') || ('A' ≤ c && c ≤ 'Z')

/-! ## Configuration (`GAME_CONFIG`) -/

def DURATION_SECONDS : Nat := 120
def NUM_LETTERS : Nat := 10
def MIN_WORD_LENGTH : Nat := 2
def MAX_WORD_LENGTH : Nat := 20
def VOWEL_POOL : List Char := "AEIOU".toList
def CONSONANT_POOL : List Char :=
  "BBCCDDDFFGGHHJJKKLLMMNNPPQQRRSSTTTVVWWXXYYZZ".toList

/-- `GAME_CONFIG.SCORING`: the static score table, keyed by word length;
`none` models a missing key (JS `undefined`). -/
def SCORING : Nat → Option Nat
  | 2 => some 1
  | 3 => some 2
  | 4 => some 3
  | 5 => some 5
  | 6 => some 8
  | 7 => some 12
  | 8 => some 20
  | _ => none

/-- `GameState.calculateWordScore` reads `GAME_CONFIG.SCORING[length] ||
GAME_CONFIG.SCORING[8]`; JS `||` falls through on `undefined` and on `0`.
The source method takes the word and uses its length; we take the length. -/
def calculateWordScore (length : Nat) : Nat :=
  match SCORING length with
  | some n => if n = 0 then (SCORING 8).getD 0 else n
  | none => (SCORING 8).getD 0

/-! ## `Utils.sanitizeInput` / `Utils.isValidInput` -/

/-- `Utils.sanitizeInput`: trim, lowercase, keep only `[a-z]`, cap length. -/
def sanitizeInput (input : List Char) : List Char :=
  (((jsTrim input).map asciiToLower).filter isLowerAZ).take MAX_WORD_LENGTH

/-- `Utils.isValidInput`: length bounds plus the regex `^[a-zA-Z]+$`. -/
def isValidInput (input : List Char) : Bool :=
  if input.length < MIN_WORD_LENGTH then false
  else if input.length > MAX_WORD_LENGTH then false
  else !input.isEmpty && input.all isAlphaAZ

/-! ## `LetterGenerator.canFormWord` -/

/-- The check loop of `LetterGenerator.canFormWord`: walk the word,
requiring a positive remaining count for each character and decrementing
it (`!letterCounts[char] || letterCounts[char] === 0` rejects). -/
def canFormGo : List Char → (Char → Nat) → Bool
  | [], _ => true
  | c :: rest, letterCounts =>
    if letterCounts c = 0 then false
    else canFormGo rest (fun d => if d = c then letterCounts d - 1 else letterCounts d)

/-- `LetterGenerator.canFormWord`: count the available letters
(case-insensitively), then consume the word character by character. -/
def canFormWord (word availableLetters : List Char) : Bool :=
  canFormGo (word.map asciiToLower)
    (fun c => (availableLetters.map asciiToLower).count c)

/-! ## `GameState` -/

/-- The per-round state of `GameState` (presentation-only fields such as
`selectedCharacter` and `characterImagePath` are omitted; JS `Set`
insertion order is kept by modelling sets as lists extended at the end). -/
structure GameState where
  currentLetters : List Char
  foundWords : List (List Char)
  invalidWords : List (List Char)
  score : Nat
  timeLeft : Nat
  isActive : Bool
  gameStartTime : Option Nat
  gameEndTime : Option Nat
deriving DecidableEq

/-- JS `Set.prototype.add`: append the element when it is not present. -/
def setAdd (l : List (List Char)) (w : List Char) : List (List Char) :=
  if w ∈ l then l else l ++ [w]

/-- `GameState.reset` establishes this fixed state. -/
def GameState.reset : GameState :=
  { currentLetters := []
    foundWords := []
    invalidWords := []
    score := 0
    timeLeft := DURATION_SECONDS
    isActive := false
    gameStartTime := none
    gameEndTime := none }

/-- `GameState.addFoundWord`: insert into the found set and add the score
of the word computed from its length. -/
def GameState.addFoundWord (g : GameState) (word : List Char) : GameState :=
  { g with foundWords := setAdd g.foundWords word
           score := g.score + calculateWordScore word.length }

/-- `GameState.addInvalidWord`: insert into the invalid set. -/
def GameState.addInvalidWord (g : GameState) (word : List Char) : GameState :=
  { g with invalidWords := setAdd g.invalidWords word }

/-- `GameState.hasFoundWord`. -/
def GameState.hasFoundWord (g : GameState) (word : List Char) : Bool :=
  decide (word ∈ g.foundWords)

/-- `GameState.hasInvalidWord`. -/
def GameState.hasInvalidWord (g : GameState) (word : List Char) : Bool :=
  decide (word ∈ g.invalidWords)

/-- `GameState.startGame`: activate and stamp the start time
(`Date.now()` passed explicitly). -/
def GameState.startGame (g : GameState) (now : Nat) : GameState :=
  { g with isActive := true, gameStartTime := some now }

/-- `GameState.endGame`: deactivate and stamp the end time — the source
sets `this.gameEndTime = Date.now()` unconditionally, with no guard on
`isActive`. -/
def GameState.endGame (g : GameState) (now : Nat) : GameState :=
  { g with isActive := false, gameEndTime := some now }

/-! ## `Dictionary` -/

/-- The dictionary state: word set plus loaded flag. -/
structure Dictionary where
  words : List (List Char)
  isLoaded : Bool
deriving DecidableEq

/-- The built-in fallback word list of `Dictionary._loadFallbackDictionary`. -/
def fallbackWords : List (List Char) :=
  (["cat", "dog", "house", "tree", "run", "jump", "play", "game", "word",
    "letter", "apple", "banana", "orange", "computer", "keyboard", "mouse",
    "ocean", "mountain", "elephant", "giraffe", "happiness", "freedom",
    "courage", "justice", "wisdom", "viking", "valkyrie", "norse", "rune",
    "myth", "legend", "hero", "battle", "sword", "shield", "dragon", "wolf",
    "bear", "eagle", "storm", "thunder", "lightning", "fire", "ice", "wind",
    "earth", "water", "magic", "spell", "quest",
    "adventure"]).map String.toList

/-- `Dictionary._loadFallbackDictionary`: adopt the built-in list and
mark loaded. -/
def Dictionary.loadFallbackDictionary (d : Dictionary) : Dictionary :=
  { d with words := fallbackWords, isLoaded := true }

/-- `Dictionary._loadFromNetwork` normalization: split lines are trimmed,
lowercased and filtered by the minimum word length. -/
def normalizeNetworkWords (lines : List (List Char)) : List (List Char) :=
  (lines.map (fun w => (jsTrim w).map asciiToLower)).filter
    (fun w => MIN_WORD_LENGTH ≤ w.length)

/-- `Dictionary._loadDictionary`, the body of `load()`.  The two effectful
collaborators are passed as explicit outcomes: `cacheResult` is what
`_loadFromCache` returned (`none` on miss, stale entry or storage error —
that helper catches its own errors), and `networkResult` is the fetched
newline-split text or the network error.  On a network failure the catch
block populates the fallback dictionary and then re-throws the error
(`throw error`), which the returned `Except` records. -/
def Dictionary.loadDictionary (d : Dictionary)
    (cacheResult : Option (List (List Char)))
    (networkResult : Except String (List (List Char))) :
    Dictionary × Except String Unit :=
  match cacheResult with
  | some cached => ({ d with words := cached, isLoaded := true }, Except.ok ())
  | none =>
    match networkResult with
    | Except.ok lines =>
        ({ d with words := normalizeNetworkWords lines, isLoaded := true },
          Except.ok ())
    | Except.error e => (d.loadFallbackDictionary, Except.error e)

/-- `Dictionary.hasWord`: lowercase the argument, then membership. -/
def Dictionary.hasWord (d : Dictionary) (word : List Char) : Bool :=
  decide ((word.map asciiToLower) ∈ d.words)

/-! ## Submission pipeline (`MythicRunesGame.handleSubmitWord`) -/

/-- The outcome of one submission, one constructor per branch of
`handleSubmitWord`. -/
inductive SubmitOutcome where
  | notActive
  | tooShort
  | alreadyFound
  | alreadyInvalid
  | cannotForm
  | notInDictionary
  | success (points : Nat)
deriving DecidableEq

/-- `MythicRunesGame.handleSubmitWord`, restricted to its effect on
`GameState` (UI calls touch no per-round state): sanitize, validate
length, check found set, check invalid set, check formability, check the
dictionary, and only then add the word and its score. -/
def handleSubmitWord (g : GameState) (dict : Dictionary)
    (rawInput : List Char) : GameState × SubmitOutcome :=
  if g.isActive = false then (g, SubmitOutcome.notActive)
  else
    let word := sanitizeInput rawInput
    if isValidInput word = false then (g, SubmitOutcome.tooShort)
    else if g.hasFoundWord word then (g, SubmitOutcome.alreadyFound)
    else if g.hasInvalidWord word then (g, SubmitOutcome.alreadyInvalid)
    else if canFormWord word g.currentLetters = false then
      (g.addInvalidWord word, SubmitOutcome.cannotForm)
    else if dict.hasWord word then
      (g.addFoundWord word, SubmitOutcome.success (calculateWordScore word.length))
    else
      (g.addInvalidWord word, SubmitOutcome.notInDictionary)

/-- Round states reachable through the operations the invariants quantify
over: `reset()`, the `startGame()` flow of `MythicRunesGame.startGame`
(reset, install generated letters, activate), and the submission
pipeline. -/
inductive Reachable : GameState → Prop where
  | reset : Reachable GameState.reset
  | startRound (g : GameState) (letters : List Char) (now : Nat) :
      Reachable g →
      Reachable (GameState.startGame
        { GameState.reset with currentLetters := letters } now)
  | submit (g : GameState) (dict : Dictionary) (raw : List Char) :
      Reachable g → Reachable (handleSubmitWord g dict raw).1

/-! ## `GameTimer` -/

/-- The countdown timer state: `interval` is whether the `setInterval`
handle is live (non-null), `timeLeft` is an integer because the source
decrements before testing `<= 0` and can pass below zero. -/
structure GameTimer where
  timeLeft : Int
  interval : Bool
  isPaused : Bool
deriving DecidableEq

/-- Callbacks observed during a run: `onTick remaining` and `onComplete`. -/
inductive TimerEvent where
  | tick (remaining : Int)
  | complete
deriving DecidableEq

/-- `GameTimer.stop`: clear the interval (idempotent). -/
def GameTimer.stop (t : GameTimer) : GameTimer :=
  { t with interval := false }

/-- `GameTimer.start`: stop any existing timer, set the duration, clear
the pause flag, install the interval. -/
def GameTimer.start (t : GameTimer) (duration : Int) : GameTimer :=
  { (t.stop) with timeLeft := duration, isPaused := false, interval := true }

/-- `GameTimer.addTime`: add seconds to the remaining time. -/
def GameTimer.addTime (t : GameTimer) (seconds : Int) : GameTimer :=
  { t with timeLeft := t.timeLeft + seconds }

/-- One firing of the interval callback: nothing happens when the
interval has been cleared or the timer is paused; otherwise decrement,
emit the tick, and on reaching `<= 0` stop and emit completion. -/
def GameTimer.step (t : GameTimer) : GameTimer × List TimerEvent :=
  if t.interval = false then (t, [])
  else if t.isPaused then (t, [])
  else
    let newTime := t.timeLeft - 1
    if newTime ≤ 0 then
      ({ timeLeft := newTime, interval := false, isPaused := t.isPaused },
        [TimerEvent.tick newTime, TimerEvent.complete])
    else
      ({ t with timeLeft := newTime }, [TimerEvent.tick newTime])

/-- `n` consecutive firings of the interval, collecting the events. -/
def GameTimer.run (t : GameTimer) : Nat → GameTimer × List TimerEvent
  | 0 => (t, [])
  | Nat.succ n =>
    let s := t.step
    let r := s.1.run n
    (r.1, s.2 ++ r.2)

/-! ## `LetterGenerator` and `Utils.shuffleArray` -/

/-- Swap two positions of a list; the JS destructuring swap reads both
old values first. -/
def listSwap (l : List Char) (i j : Nat) : List Char :=
  (l.set i (l.getD j ' ')).set j (l.getD i ' ')

/-- The Fisher–Yates loop of `Utils.shuffleArray`: the counter runs from
`array.length - 1` down to `1`, swapping index `i` with a random index
`j` in `[0, i]`. -/
def shuffleGo (rand : Nat → Nat) : Nat → List Char → List Char
  | 0, l => l
  | Nat.succ k, l =>
    shuffleGo rand k (listSwap l (Nat.succ k) (rand (Nat.succ k) % (Nat.succ k + 1)))

/-- `Utils.shuffleArray` (pure model: the copy `[...array]` is implicit). -/
def shuffleArray (rand : Nat → Nat) (array : List Char) : List Char :=
  shuffleGo rand (array.length - 1) array

/-- `LetterGenerator.generate`: draw 4 vowels and
`NUM_LETTERS - 4` consonants from the character pools, then shuffle.
`rand` is the oracle of successive `Math.random()` draws; distinct call
numbers are used for the vowel picks, the consonant picks and the
shuffle. -/
def LetterGenerator.generate (rand : Nat → Nat) : List Char :=
  let numVowels := 4
  let numConsonants := NUM_LETTERS - numVowels
  let vowels := (List.range numVowels).map
    (fun i => VOWEL_POOL.getD (rand i % VOWEL_POOL.length) 'A')
  let consonants := (List.range numConsonants).map
    (fun i => CONSONANT_POOL.getD (rand (numVowels + i) % CONSONANT_POOL.length) 'B')
  shuffleArray (fun i => rand (NUM_LETTERS + i)) (vowels ++ consonants)

/-- The score the score table assigns to a round: the sum, over the words
in the found set, of the table value of the length of the word. -/
def foundWordsScore (g : GameState) : Nat :=
  (g.foundWords.map (fun w => calculateWordScore w.length)).sum

/-! ## Theorems -/

theorem setAdd_mem {l : List (List Char)} {w x : List Char} :
    x ∈ setAdd l w ↔ x ∈ l ∨ x = w := by
  unfold setAdd
  split_ifs with h
  · constructor
    · exact fun hx => Or.inl hx
    · rintro (hx | rfl)
      · exact hx
      · exact h
  · simp [List.mem_append]

theorem canFormGo_iff_counts (w : List Char) : ∀ letterCounts : Char → Nat,
    canFormGo w letterCounts = true ↔ ∀ c, w.count c ≤ letterCounts c := by
  induction w with
  | nil =>
    intro letterCounts
    simp [canFormGo]
  | cons c rest ih =>
    intro letterCounts
    by_cases h0 : letterCounts c = 0
    · simp only [canFormGo, if_pos h0]
      constructor
      · intro h; cases h
      · intro hall
        have hc := hall c
        rw [List.count_cons_self, h0] at hc
        omega
    · simp only [canFormGo, if_neg h0, ih]
      constructor
      · intro h d
        by_cases hd : d = c
        · subst hd
          have hrest := h d
          rw [if_pos rfl] at hrest
          rw [List.count_cons_self]
          omega
        · have hrest := h d
          rw [if_neg hd] at hrest
          rw [List.count_cons_of_ne hd]
          exact hrest
      · intro h d
        by_cases hd : d = c
        · subst hd
          rw [if_pos rfl]
          have hc := h d
          rw [List.count_cons_self] at hc
          omega
        · rw [if_neg hd]
          have hc := h d
          rw [List.count_cons_of_ne hd] at hc
          exact hc

/-- C3: `canFormWord(word, pool)` is true iff, for every letter, the
count of its occurrences in the word is at most its count in the pool,
both compared case-insensitively; in particular the empty word is
formable from every pool. -/
theorem canFormWord_multiset_subset (word pool : List Char) :
    (canFormWord word pool = true ↔
      ∀ c : Char,
        (word.map asciiToLower).count c ≤ (pool.map asciiToLower).count c)
    ∧ canFormWord [] pool = true := by
  constructor
  · exact canFormGo_iff_counts (word.map asciiToLower) _
  · rfl

/-- C7: the score table is total via `calculateWordScore`, non-decreasing
on lengths 2 through 8, and plateaus: every length greater than 8 scores
the same as length 8 (in particular length 9 does). -/
theorem scoring_monotone_plateau :
    (∀ len1 len2 : Nat, 2 ≤ len1 → len1 ≤ len2 → len2 ≤ 8 →
        calculateWordScore len1 ≤ calculateWordScore len2)
    ∧ ∀ len : Nat, 8 < len → calculateWordScore len = calculateWordScore 8 := by
  constructor
  · intro len1 len2 h1 h12 h2
    have h1' : len1 ≤ 8 := le_trans h12 h2
    interval_cases len1 <;> interval_cases len2 <;> decide
  · intro len hlen
    obtain ⟨n, rfl⟩ : ∃ n, len = n + 9 := ⟨len - 9, by omega⟩
    rfl

/-- Witness for C7 at lengths 3 and 5 for monotonicity and at length 9
for the plateau. -/
theorem scoring_monotone_plateau_witness :
    ((2 ≤ 3 ∧ 3 ≤ 5 ∧ 5 ≤ 8) ∧ calculateWordScore 3 ≤ calculateWordScore 5)
    ∧ (8 < 9 ∧ calculateWordScore 9 = calculateWordScore 8) :=
  ⟨⟨by decide,
      scoring_monotone_plateau.1 3 5 (by decide) (by decide) (by decide)⟩,
    by decide, scoring_monotone_plateau.2 9 (by decide)⟩

/-- C10: `calculateWordScore` is total: any length without a score-table
entry — lengths 0 and 1 included, not only lengths above 8 — falls back
to the length-8 value 20. -/
theorem calculateWordScore_total (len : Nat) (h : SCORING len = none) :
    calculateWordScore len = 20 := by
  unfold calculateWordScore
  rw [h]
  rfl

/-- Witness for C10 at length 0 (below the documented minimum). -/
theorem calculateWordScore_total_witness :
    SCORING 0 = none ∧ calculateWordScore 0 = 20 :=
  ⟨by decide, calculateWordScore_total 0 (by decide)⟩

/-- C1 counterexample: with a cache miss and a failed network fetch, the
outcome of `load()` is the re-thrown network error, not success — the
error does propagate to the caller. -/
theorem loadDictionary_error_propagates_cex :
    ((Dictionary.mk [] false).loadDictionary none
        (Except.error "network down")).2 = Except.error "network down"
    ∧ ((Dictionary.mk [] false).loadDictionary none
        (Except.error "network down")).2 ≠ Except.ok () := by
  constructor
  · rfl
  · intro h
    exact Except.noConfusion h

/-- C1 amended: when the cache check and the network fetch both fail,
`load()` populates the built-in fallback word list and marks the
dictionary loaded, but it re-throws the network error, so the caller
observes a rejected promise (the callers catch it and use it only for
logging). -/
theorem loadDictionary_fallback_on_failure (d : Dictionary) (e : String) :
    d.loadDictionary none (Except.error e)
      = ({ d with words := fallbackWords, isLoaded := true },
          Except.error e) := rfl

/-- C2: the code evaluated at the failing input — `endGame()` at time 100
then again at time 200 re-stamps the end timestamp (there is no
`isActive` guard), contradicting the required stamp-exactly-once
idempotence. -/
theorem endGame_double_stamp_bug :
    ((GameState.reset.startGame 0).endGame 100).gameEndTime = some 100
    ∧ (((GameState.reset.startGame 0).endGame 100).endGame 200).gameEndTime
        = some 200
    ∧ (((GameState.reset.startGame 0).endGame 100).endGame 200).gameEndTime
        ≠ ((GameState.reset.startGame 0).endGame 100).gameEndTime := by
  refine ⟨rfl, rfl, ?_⟩
  decide

theorem handleSubmitWord_score_step (g : GameState) (dict : Dictionary)
    (raw : List Char) (h : g.score = foundWordsScore g) :
    (handleSubmitWord g dict raw).1.score
      = foundWordsScore (handleSubmitWord g dict raw).1 := by
  simp only [handleSubmitWord]
  split_ifs with h1 h2 h3 h4 h5 h6
  · exact h
  · exact h
  · exact h
  · exact h
  · simpa [foundWordsScore, GameState.addInvalidWord] using h
  · have hmem : sanitizeInput raw ∉ g.foundWords := by
      simpa [GameState.hasFoundWord] using h3
    simp only [foundWordsScore, GameState.addFoundWord, setAdd, if_neg hmem]
    simp only [List.map_append, List.sum_append, List.map_cons, List.sum_cons,
      List.map_nil, List.sum_nil]
    unfold foundWordsScore at h
    omega
  · simpa [foundWordsScore, GameState.addInvalidWord] using h

/-- C5: in every round state reachable via `reset()`, the start-game flow
and the submission pipeline, the score equals the sum over the found
words of the score-table value of the length of the word. -/
theorem score_invariant_reachable (g : GameState) (h : Reachable g) :
    g.score = foundWordsScore g := by
  induction h with
  | reset => rfl
  | startRound g letters now _ _ => rfl
  | submit g dict raw _ ih => exact handleSubmitWord_score_step g dict raw ih

/-- Witness for C5: a concrete round in which the word cat was found,
reached by reset, start, then one successful submission. -/
theorem score_invariant_reachable_witness :
    (handleSubmitWord
        (GameState.startGame
          { GameState.reset with currentLetters := "SCRATEPIOD".toList } 0)
        (Dictionary.mk ["cat".toList] true) "cat".toList).1.score
      = foundWordsScore (handleSubmitWord
        (GameState.startGame
          { GameState.reset with currentLetters := "SCRATEPIOD".toList } 0)
        (Dictionary.mk ["cat".toList] true) "cat".toList).1 :=
  score_invariant_reachable _
    (Reachable.submit _ _ _ (Reachable.startRound _ _ _ Reachable.reset))

theorem handleSubmitWord_disjoint_step (g : GameState) (dict : Dictionary)
    (raw : List Char)
    (h : ∀ w, w ∈ g.foundWords → w ∉ g.invalidWords) :
    ∀ w, w ∈ (handleSubmitWord g dict raw).1.foundWords →
      w ∉ (handleSubmitWord g dict raw).1.invalidWords := by
  simp only [handleSubmitWord]
  split_ifs with h1 h2 h3 h4 h5 h6
  · exact h
  · exact h
  · exact h
  · exact h
  · -- CannotForm: the word joins the invalid set; it is not in the found set
    intro w hw
    simp only [GameState.addInvalidWord] at hw ⊢
    rw [setAdd_mem]
    rintro (hinv | rfl)
    · exact h w hw hinv
    · exact absurd (by simpa [GameState.hasFoundWord] using hw) h3
  · -- Success: the word joins the found set; it is not in the invalid set
    intro w hw
    simp only [GameState.addFoundWord] at hw ⊢
    rw [setAdd_mem] at hw
    rcases hw with hw | rfl
    · exact h w hw
    · simpa [GameState.hasInvalidWord] using h4
  · -- NotInDictionary: same shape as CannotForm
    intro w hw
    simp only [GameState.addInvalidWord] at hw ⊢
    rw [setAdd_mem]
    rintro (hinv | rfl)
    · exact h w hw hinv
    · exact absurd (by simpa [GameState.hasFoundWord] using hw) h3

/-- C6: in every round state reachable via `reset()`, the start-game flow
and the submission pipeline, no word is in both the found-words set and
the invalid-words set. -/
theorem found_invalid_disjoint_reachable (g : GameState) (h : Reachable g) :
    ∀ w, w ∈ g.foundWords → w ∉ g.invalidWords := by
  induction h with
  | reset => intro w hw; cases hw
  | startRound g letters now _ _ => intro w hw; cases hw
  | submit g dict raw _ ih => exact handleSubmitWord_disjoint_step g dict raw ih

/-- Witness for C6: a concrete round reached by reset, start, a rejected
submission (zzz cannot be formed) and an accepted one (cat). -/
theorem found_invalid_disjoint_reachable_witness :
    GameState.hasInvalidWord (handleSubmitWord
        (handleSubmitWord
          (GameState.startGame
            { GameState.reset with currentLetters := "SCRATEPIOD".toList } 1)
          (Dictionary.mk ["cat".toList] true) "zzz".toList).1
        (Dictionary.mk ["cat".toList] true) "cat".toList).1
      "cat".toList = false := by
  have hr : Reachable (handleSubmitWord
      (handleSubmitWord
        (GameState.startGame
          { GameState.reset with currentLetters := "SCRATEPIOD".toList } 1)
        (Dictionary.mk ["cat".toList] true) "zzz".toList).1
      (Dictionary.mk ["cat".toList] true) "cat".toList).1 :=
    Reachable.submit _ (Dictionary.mk ["cat".toList] true) "cat".toList
      (Reachable.submit _ (Dictionary.mk ["cat".toList] true) "zzz".toList
        (Reachable.startRound GameState.reset "SCRATEPIOD".toList 1
          Reachable.reset))
  have h := found_invalid_disjoint_reachable _ hr "cat".toList (by decide)
  simp only [GameState.hasInvalidWord, decide_eq_false_iff_not]
  exact h

/-- C9: submissions rejected as TooShort, AlreadyFound or AlreadyInvalid
leave the found set, the invalid set and the score unchanged, and any
change to them comes only from a CannotForm, NotInDictionary or success
outcome. -/
theorem submit_reject_frame (g : GameState) (dict : Dictionary)
    (raw : List Char) :
    (((handleSubmitWord g dict raw).2 = SubmitOutcome.tooShort
      ∨ (handleSubmitWord g dict raw).2 = SubmitOutcome.alreadyFound
      ∨ (handleSubmitWord g dict raw).2 = SubmitOutcome.alreadyInvalid) →
      (handleSubmitWord g dict raw).1.foundWords = g.foundWords
      ∧ (handleSubmitWord g dict raw).1.invalidWords = g.invalidWords
      ∧ (handleSubmitWord g dict raw).1.score = g.score)
    ∧ (((handleSubmitWord g dict raw).1.foundWords ≠ g.foundWords
      ∨ (handleSubmitWord g dict raw).1.invalidWords ≠ g.invalidWords
      ∨ (handleSubmitWord g dict raw).1.score ≠ g.score) →
      (handleSubmitWord g dict raw).2 = SubmitOutcome.cannotForm
      ∨ (handleSubmitWord g dict raw).2 = SubmitOutcome.notInDictionary
      ∨ ∃ p, (handleSubmitWord g dict raw).2 = SubmitOutcome.success p) := by
  simp only [handleSubmitWord]
  split_ifs with h1 h2 h3 h4 h5 h6 <;> simp

/-- Witness for C9: a too-short submission (single letter a) against an
active round leaves the three per-round fields unchanged. -/
theorem submit_reject_frame_witness :
    ((handleSubmitWord
        (GameState.startGame
          { GameState.reset with currentLetters := "SCRATEPIOD".toList } 2)
        (Dictionary.mk [] true) "a".toList).2 = SubmitOutcome.tooShort
      ∨ (handleSubmitWord
        (GameState.startGame
          { GameState.reset with currentLetters := "SCRATEPIOD".toList } 2)
        (Dictionary.mk [] true) "a".toList).2 = SubmitOutcome.alreadyFound
      ∨ (handleSubmitWord
        (GameState.startGame
          { GameState.reset with currentLetters := "SCRATEPIOD".toList } 2)
        (Dictionary.mk [] true) "a".toList).2 = SubmitOutcome.alreadyInvalid)
    ∧ (handleSubmitWord
        (GameState.startGame
          { GameState.reset with currentLetters := "SCRATEPIOD".toList } 2)
        (Dictionary.mk [] true) "a".toList).1.foundWords
      = (GameState.startGame
          { GameState.reset with currentLetters := "SCRATEPIOD".toList } 2).foundWords :=
  ⟨Or.inl (by decide),
    ((submit_reject_frame _ _ _).1 (Or.inl (by decide))).1⟩

theorem run_stopped (n : Nat) (t : GameTimer) (h : t.interval = false) :
    t.run n = (t, []) := by
  induction n with
  | zero => rfl
  | succ n ih =>
    have hs : t.step = (t, []) := by
      simp [GameTimer.step, h]
    simp [GameTimer.run, hs, ih]

theorem run_props (n : Nat) : ∀ t : GameTimer,
    (t.interval = true → 1 ≤ t.timeLeft) →
    (∀ r, TimerEvent.tick r ∈ (t.run n).2 → 0 ≤ r)
    ∧ (t.run n).2.count TimerEvent.complete ≤ 1
    ∧ ((t.run n).1.interval = true → 1 ≤ (t.run n).1.timeLeft) := by
  induction n with
  | zero =>
    intro t ht
    exact ⟨fun r hr => absurd hr (List.not_mem_nil _), by simp [GameTimer.run], ht⟩
  | succ n ih =>
    rintro ⟨tl, iv, ip⟩ ht
    match iv, ip with
    | false, ip =>
      have hs : (GameTimer.mk tl false ip).step = (GameTimer.mk tl false ip, []) := by
        simp [GameTimer.step]
      simp only [GameTimer.run, hs]
      simpa using ih (GameTimer.mk tl false ip) ht
    | true, true =>
      have hs : (GameTimer.mk tl true true).step = (GameTimer.mk tl true true, []) := by
        simp [GameTimer.step]
      simp only [GameTimer.run, hs]
      simpa using ih (GameTimer.mk tl true true) ht
    | true, false =>
      have htl : 1 ≤ tl := ht rfl
      by_cases hz : tl - 1 ≤ 0
      · have hs : (GameTimer.mk tl true false).step
            = (GameTimer.mk (tl - 1) false false,
                [TimerEvent.tick (tl - 1), TimerEvent.complete]) := by
          simp [GameTimer.step, hz]
        have hrest := run_stopped n (GameTimer.mk (tl - 1) false false) rfl
        simp only [GameTimer.run, hs, hrest]
        refine ⟨?_, by simp, by intro hfalse; cases hfalse⟩
        intro r hr
        simp only [List.append_nil, List.mem_cons, List.not_mem_nil] at hr
        rcases hr with hr | hr | hr
        · cases hr; omega
        · cases hr
        · cases hr
      · have hs : (GameTimer.mk tl true false).step
            = (GameTimer.mk (tl - 1) true false, [TimerEvent.tick (tl - 1)]) := by
          simp only [GameTimer.step]
          rw [if_neg (by simp), if_neg (by simp), if_neg hz]
        have hnext := ih (GameTimer.mk (tl - 1) true false)
          (fun _ => show (1 : Int) ≤ tl - 1 by omega)
        simp only [GameTimer.run, hs]
        refine ⟨?_, ?_, hnext.2.2⟩
        · intro r hr
          simp only [List.cons_append, List.nil_append, List.mem_cons] at hr
          rcases hr with hr | hr
          · cases hr; omega
          · exact hnext.1 r hr
        · simpa using hnext.2.1

theorem run_completes (n : Nat) : ∀ t : GameTimer,
    t.interval = true → t.isPaused = false → 1 ≤ t.timeLeft →
    t.timeLeft ≤ (n : Int) →
    (t.run n).2.count TimerEvent.complete = 1
    ∧ (t.run n).1.interval = false := by
  induction n with
  | zero =>
    intro t _ _ h3 h4
    exfalso
    omega
  | succ n ih =>
    rintro ⟨tl, iv, ip⟩ h1 h2 h3 h4
    simp only at h1 h2 h3 h4
    subst h1
    subst h2
    by_cases hz : tl - 1 ≤ 0
    · have hs : (GameTimer.mk tl true false).step
          = (GameTimer.mk (tl - 1) false false,
              [TimerEvent.tick (tl - 1), TimerEvent.complete]) := by
        simp [GameTimer.step, hz]
      have hrest := run_stopped n (GameTimer.mk (tl - 1) false false) rfl
      simp only [GameTimer.run, hs, hrest]
      constructor
      · simp [List.count_cons]
      · trivial
    · have hs : (GameTimer.mk tl true false).step
          = (GameTimer.mk (tl - 1) true false, [TimerEvent.tick (tl - 1)]) := by
        simp only [GameTimer.step]
        rw [if_neg (by simp), if_neg (by simp), if_neg hz]
      have hnext := ih (GameTimer.mk (tl - 1) true false) rfl rfl
        (show (1 : Int) ≤ tl - 1 by omega)
        (show (tl - 1 : Int) ≤ (n : Int) by push_cast at h4 ⊢; omega)
      simp only [GameTimer.run, hs]
      refine ⟨?_, hnext.2⟩
      simpa [List.count_cons] using hnext.1

/-- C4 counterexample: a clock started with duration 0 drives the
remaining value to -1 on its first tick — the tick callback observes a
negative remaining-seconds value. -/
theorem gameTimer_negative_tick_cex :
    TimerEvent.tick (-1)
      ∈ (((GameTimer.mk 0 false false).start 0).run 1).2 := by
  decide

/-- C4 amended: for every run started with a positive duration, the
remaining value passed to tick callbacks is never negative, the
completion callback fires at most once — exactly once as soon as the run
is at least `duration` ticks long, after which the clock is stopped and
no further tick or completion callbacks ever occur.  (A run started with
duration 0 or less instead ticks once with the negative value
`duration - 1`, as the counterexample shows.) -/
theorem gameTimer_positive_duration_run (t0 : GameTimer) (d : Int) (n : Nat)
    (hd : 1 ≤ d) :
    (∀ r, TimerEvent.tick r ∈ ((t0.start d).run n).2 → 0 ≤ r)
    ∧ ((t0.start d).run n).2.count TimerEvent.complete ≤ 1
    ∧ (d ≤ (n : Int) →
        ((t0.start d).run n).2.count TimerEvent.complete = 1
        ∧ ((t0.start d).run n).1.interval = false
        ∧ ∀ m, (((t0.start d).run n).1).run m
            = (((t0.start d).run n).1, [])) := by
  have h1 := run_props n (t0.start d) (fun _ => hd)
  refine ⟨h1.1, h1.2.1, fun hn => ?_⟩
  have h2 := run_completes n (t0.start d) rfl rfl hd hn
  exact ⟨h2.1, h2.2, fun m => run_stopped m _ h2.2⟩

/-- Witness for C4 at duration 5 with exactly 5 ticks: the completion
callback fires exactly once. -/
theorem gameTimer_positive_duration_run_witness :
    (1 : Int) ≤ 5
    ∧ (((GameTimer.mk 0 false false).start 5).run 5).2.count
        TimerEvent.complete = 1 :=
  ⟨by decide,
    ((gameTimer_positive_duration_run (GameTimer.mk 0 false false) 5 5
      (by decide)).2.2 (by decide)).1⟩

theorem getD_mem (l : List Char) : ∀ (i : Nat) (d : Char), i < l.length →
    l.getD i d ∈ l := by
  induction l with
  | nil =>
    intro i d h
    simp at h
  | cons a t ih =>
    intro i d h
    cases i with
    | zero => exact List.mem_cons_self a t
    | succ n => exact List.mem_cons_of_mem a (ih n d (Nat.lt_of_succ_lt_succ h))

theorem getD_set_self (l : List Char) : ∀ (i : Nat) (x d : Char),
    i < l.length → (l.set i x).getD i d = x := by
  induction l with
  | nil =>
    intro i x d h
    simp at h
  | cons a t ih =>
    intro i x d h
    cases i with
    | zero => rfl
    | succ n => exact ih n x d (Nat.lt_of_succ_lt_succ h)

theorem getD_set_ne (l : List Char) : ∀ (i j : Nat) (x d : Char), i ≠ j →
    (l.set i x).getD j d = l.getD j d := by
  induction l with
  | nil =>
    intro i j x d _
    rfl
  | cons a t ih =>
    intro i j x d h
    cases i with
    | zero =>
      cases j with
      | zero => exact absurd rfl h
      | succ m => rfl
    | succ n =>
      cases j with
      | zero => rfl
      | succ m => exact ih n m x d (fun he => h (by rw [he]))

theorem count_set_getD (l : List Char) : ∀ (i : Nat) (x c d : Char),
    i < l.length →
    (l.set i x).count c + (if l.getD i d = c then 1 else 0)
      = l.count c + (if x = c then 1 else 0) := by
  induction l with
  | nil =>
    intro i x c d h
    simp at h
  | cons a t ih =>
    intro i x c d h
    cases i with
    | zero =>
      simp only [List.set_cons_zero, List.getD_cons_zero, List.count_cons,
        beq_iff_eq]
      split_ifs <;> omega
    | succ n =>
      simp only [List.set_cons_succ, List.getD_cons_succ, List.count_cons,
        beq_iff_eq]
      have hrec := ih n x c d (Nat.lt_of_succ_lt_succ h)
      split_ifs at hrec ⊢ <;> omega

theorem listSwap_count (l : List Char) (i j : Nat) (hi : i < l.length)
    (hj : j < l.length) (c : Char) :
    (listSwap l i j).count c = l.count c := by
  unfold listSwap
  have h1 := count_set_getD l i (l.getD j ' ') c ' ' hi
  have h2 := count_set_getD (l.set i (l.getD j ' ')) j (l.getD i ' ') c ' '
    (by simpa using hj)
  by_cases hij : i = j
  · subst hij
    rw [getD_set_self l i (l.getD i ' ') ' ' hi] at h2
    omega
  · rw [getD_set_ne l i j (l.getD j ' ') ' ' hij] at h2
    omega

theorem shuffleGo_count (rand : Nat → Nat) : ∀ (k : Nat) (l : List Char),
    k < l.length → ∀ c, (shuffleGo rand k l).count c = l.count c := by
  intro k
  induction k with
  | zero =>
    intro l _ c
    rfl
  | succ n ih =>
    intro l h c
    have hj : rand (n + 1) % (n + 2) < l.length := by
      have := Nat.mod_lt (rand (n + 1)) (show 0 < n + 2 by omega)
      omega
    have hswap := listSwap_count l (n + 1) (rand (n + 1) % (n + 2)) h hj c
    have hlen : (listSwap l (n + 1) (rand (n + 1) % (n + 2))).length
        = l.length := by
      simp [listSwap]
    simp only [shuffleGo]
    rw [ih _ (by rw [hlen]; omega) c, hswap]

theorem shuffleArray_perm (rand : Nat → Nat) (l : List Char) :
    (shuffleArray rand l).Perm l := by
  rw [List.perm_iff_count]
  intro c
  by_cases h0 : l.length = 0
  · unfold shuffleArray
    rw [h0]
    rfl
  · exact shuffleGo_count rand (l.length - 1) l (by omega) c

theorem pool_counts (vlist clist : List Char)
    (hv : ∀ x ∈ vlist, x ∈ VOWEL_POOL)
    (hc : ∀ x ∈ clist, x ∈ CONSONANT_POOL) :
    (vlist ++ clist).countP (fun c => decide (c ∈ VOWEL_POOL)) = vlist.length
    ∧ (vlist ++ clist).countP (fun c => decide (c ∈ CONSONANT_POOL))
        = clist.length
    ∧ ∀ c ∈ vlist ++ clist, c ∈ VOWEL_POOL ∨ c ∈ CONSONANT_POOL := by
  have hdisj1 : ∀ x ∈ CONSONANT_POOL, x ∉ VOWEL_POOL := by decide
  have hdisj2 : ∀ x ∈ VOWEL_POOL, x ∉ CONSONANT_POOL := by decide
  refine ⟨?_, ?_, ?_⟩
  · rw [List.countP_append]
    have ha : vlist.countP (fun c => decide (c ∈ VOWEL_POOL)) = vlist.length :=
      List.countP_eq_length.mpr (fun a ha => by simpa using hv a ha)
    have hb : clist.countP (fun c => decide (c ∈ VOWEL_POOL)) = 0 :=
      List.countP_eq_zero.mpr (fun a ha => by simpa using hdisj1 a (hc a ha))
    omega
  · rw [List.countP_append]
    have ha : vlist.countP (fun c => decide (c ∈ CONSONANT_POOL)) = 0 :=
      List.countP_eq_zero.mpr (fun a ha => by simpa using hdisj2 a (hv a ha))
    have hb : clist.countP (fun c => decide (c ∈ CONSONANT_POOL))
        = clist.length :=
      List.countP_eq_length.mpr (fun a ha => by simpa using hc a ha)
    omega
  · intro c hcm
    rcases List.mem_append.mp hcm with h | h
    · exact Or.inl (hv c h)
    · exact Or.inr (hc c h)

/-- C8: every generated pool has length `NUM_LETTERS` (10), contains
exactly 4 letters from the vowel alphabet and the remaining 6 from the
consonant alphabet, every letter belongs to one of the two alphabets,
and the final shuffle returns a permutation (same multiset) of its
input. -/
theorem letter_pool_spec (rand : Nat → Nat) :
    (LetterGenerator.generate rand).length = NUM_LETTERS
    ∧ (LetterGenerator.generate rand).countP
        (fun c => decide (c ∈ VOWEL_POOL)) = 4
    ∧ (LetterGenerator.generate rand).countP
        (fun c => decide (c ∈ CONSONANT_POOL)) = NUM_LETTERS - 4
    ∧ (∀ c ∈ LetterGenerator.generate rand,
        c ∈ VOWEL_POOL ∨ c ∈ CONSONANT_POOL)
    ∧ ∀ l : List Char, (shuffleArray rand l).Perm l := by
  have hgen : LetterGenerator.generate rand
      = shuffleArray (fun i => rand (NUM_LETTERS + i))
          ((List.range 4).map
              (fun i => VOWEL_POOL.getD (rand i % VOWEL_POOL.length) 'A')
            ++ (List.range (NUM_LETTERS - 4)).map
              (fun i => CONSONANT_POOL.getD
                (rand (4 + i) % CONSONANT_POOL.length) 'B')) := rfl
  have hv : ∀ x ∈ (List.range 4).map
      (fun i => VOWEL_POOL.getD (rand i % VOWEL_POOL.length) 'A'),
      x ∈ VOWEL_POOL := by
    intro x hx
    simp only [List.mem_map, List.mem_range] at hx
    obtain ⟨i, _, rfl⟩ := hx
    exact getD_mem VOWEL_POOL _ 'A' (Nat.mod_lt _ (by decide))
  have hc : ∀ x ∈ (List.range (NUM_LETTERS - 4)).map
      (fun i => CONSONANT_POOL.getD (rand (4 + i) % CONSONANT_POOL.length) 'B'),
      x ∈ CONSONANT_POOL := by
    intro x hx
    simp only [List.mem_map, List.mem_range] at hx
    obtain ⟨i, _, rfl⟩ := hx
    exact getD_mem CONSONANT_POOL _ 'B' (Nat.mod_lt _ (by decide))
  have hcounts := pool_counts _ _ hv hc
  have hperm := shuffleArray_perm (fun i => rand (NUM_LETTERS + i))
    ((List.range 4).map
        (fun i => VOWEL_POOL.getD (rand i % VOWEL_POOL.length) 'A')
      ++ (List.range (NUM_LETTERS - 4)).map
        (fun i => CONSONANT_POOL.getD (rand (4 + i) % CONSONANT_POOL.length) 'B'))
  rw [hgen]
  refine ⟨?_, ?_, ?_, ?_, shuffleArray_perm rand⟩
  · rw [hperm.length_eq]
    simp [NUM_LETTERS]
  · rw [hperm.countP_eq]
    rw [hcounts.1]
    simp
  · rw [hperm.countP_eq]
    rw [hcounts.2.1]
    simp [NUM_LETTERS]
  · intro c hcm
    exact hcounts.2.2 c (hperm.mem_iff.mp hcm)

/-- Witness for C3: cat is formable from the pool SCRATEPIOD. -/
theorem canFormWord_multiset_subset_witness :
    ("cat".toList.map asciiToLower).count 'c'
      ≤ ("SCRATEPIOD".toList.map asciiToLower).count 'c' :=
  (canFormWord_multiset_subset "cat".toList "SCRATEPIOD".toList).1.mp
    (by decide) 'c'

/-- Witness for C1 at a concrete dictionary and error. -/
theorem loadDictionary_fallback_on_failure_witness :
    (Dictionary.mk [] false).loadDictionary none (Except.error "offline")
      = (Dictionary.mk fallbackWords true, Except.error "offline") :=
  loadDictionary_fallback_on_failure (Dictionary.mk [] false) "offline"

/-- Witness for C8 at a constant random oracle. -/
theorem letter_pool_spec_witness :
    (LetterGenerator.generate (fun _ => 0)).length = NUM_LETTERS :=
  (letter_pool_spec (fun _ => 0)).1

end MysticRunes
